import Mathlib

/-!
# go-base: time-aware cache and HTTP handler wrapping

A shallow embedding of

* `data/cache/cache.go`: the `Cache` interface and `NewInMemoryCache`;
* `kit/transport/http/handler.go`: `NoopMiddleware`, `Wrap`, the
  `HandlerWith*` options and `newHandler`.

The backing store `data/cache/inmem` is not part of the sources at hand; the
definitions of namespace `inmem` follow the written specification of the
store (sections 3 and 4.1) and say so in their doc comments.

Time is explicit: every store operation takes the clock reading `now` as an
argument, timestamps and durations are integers (nanoseconds, as
`time.Duration`).
-/

set_option autoImplicit false

/-! ## The backing store (`data/cache/inmem`) -/

namespace inmem

/-- Modelled from the spec: the typed, recoverable errors of the store
(`inmem.ErrKeyExists`, `inmem.ErrKeyNotFound`), section 7. A Go `error` is an
`Option Error`, `none` being `nil`. -/
inductive Error where
  | ErrKeyExists
  | ErrKeyNotFound
  deriving DecidableEq, Repr

/-- Modelled from the spec: `inmem`'s entry, section 3: key, opaque value and
`expiresAt`, an absolute timestamp or the never-expires sentinel (`none`). -/
structure Entry (V : Type) where
  key : String
  value : V
  expiresAt : Option Int

/-- Modelled from the spec: liveness of an `inmem` entry, section 3: live iff
`expiresAt` is the never-expire sentinel or strictly after the current time. -/
def Entry.live {V : Type} (e : Entry V) (now : Int) : Bool :=
  match e.expiresAt with
  | none => true
  | some t => decide (now < t)

/-- Modelled from the spec: the sweep criterion of `inmem`, section 4.1: an
entry is removed by a sweep when its `expiresAt` is before the current time. -/
def Entry.sweepable {V : Type} (e : Entry V) (now : Int) : Bool :=
  match e.expiresAt with
  | none => false
  | some t => decide (t < now)

/-- Modelled from the spec: `inmem`'s store, section 3: a mapping from key to
entry (keys unique), `defaultExpiry` and `sweepInterval`. -/
structure Store (V : Type) where
  table : String → Option (Entry V)
  defaultExpiry : Int
  sweepInterval : Int

/-- Modelled from the spec: the expiration an `inmem` write gives an entry,
section 4.1: a `ttl` of zero or negative means "never expires", otherwise the
entry expires `ttl` after the write. -/
def expiry (now ttl : Int) : Option Int :=
  if ttl ≤ 0 then none else some (now + ttl)

/-- Modelled from the spec: `inmem`'s `SetWithDuration`, section 4.1:
unconditionally inserts or overwrites the entry with time-to-live `ttl`. -/
def Store.SetWithDuration {V : Type} (s : Store V) (now : Int) (k : String) (val : V)
    (ttl : Int) : Store V :=
  { s with table := fun k' => if k' = k then some ⟨k, val, expiry now ttl⟩ else s.table k' }

/-- Modelled from the spec: `inmem`'s `Set`, section 4.1: unconditionally
inserts or overwrites, using `defaultExpiry` as the time-to-live. -/
def Store.Set {V : Type} (s : Store V) (now : Int) (k : String) (val : V) : Store V :=
  s.SetWithDuration now k val s.defaultExpiry

/-- Modelled from the spec: the existence check inside `inmem`'s `Add` and
`Replace`, section 4.1: is there a live entry for `k` at time `now`. -/
def Store.hasLive {V : Type} (s : Store V) (now : Int) (k : String) : Bool :=
  match s.table k with
  | some e => e.live now
  | none => false

/-- Modelled from the spec: `inmem`'s `Add`, section 4.1: inserts only if no
live entry exists for the key (an expired, not yet swept entry counts as
absent), fails with `ErrKeyExists` otherwise; on success behaves like `Set`. -/
def Store.Add {V : Type} (s : Store V) (now : Int) (k : String) (val : V) :
    Store V × Option Error :=
  if s.hasLive now k then (s, some Error.ErrKeyExists) else (s.Set now k val, none)

/-- Modelled from the spec: `inmem`'s `Replace`, section 4.1: updates only if
a live entry exists for the key, resetting the expiration as `Set` does; fails
with `ErrKeyNotFound` otherwise. -/
def Store.Replace {V : Type} (s : Store V) (now : Int) (k : String) (val : V) :
    Store V × Option Error :=
  if s.hasLive now k then (s.Set now k val, none) else (s, some Error.ErrKeyNotFound)

/-- Modelled from the spec: `inmem`'s `Get`, section 4.1: the value and
`found = true` if a live entry exists, `found = false` otherwise (never
inserted, or expired). The value of a miss is Go's `nil`, here `none`. -/
def Store.Get {V : Type} (s : Store V) (now : Int) (k : String) : Option V × Bool :=
  match s.table k with
  | some e => if e.live now then (some e.value, true) else (none, false)
  | none => (none, false)

/-- Modelled from the spec: `inmem`'s `Delete`, section 4.1: removes the entry
if present, does nothing if absent. -/
def Store.Delete {V : Type} (s : Store V) (k : String) : Store V :=
  { s with table := fun k' => if k' = k then none else s.table k' }

/-- Modelled from the spec: one firing of `inmem`'s background eviction sweep,
section 4.1: physically removes every entry whose `expiresAt` is before the
current time. -/
def Store.sweep {V : Type} (s : Store V) (now : Int) : Store V :=
  { s with table := fun k' =>
      match s.table k' with
      | some e => if e.sweepable now then none else some e
      | none => none }

/-- Modelled from the spec: the configuration `inmem`'s options act on,
section 3: the two durations given at construction. -/
structure Config where
  defaultExpiry : Int
  sweepInterval : Int

/-- Modelled from the spec: `inmem.Option`, section 4.1: a pure transform on
the store's configuration, applied at construction time. -/
def Option : Type := Config → Config

/-- Modelled from the spec: `inmem.New`, sections 3 and 6: applies the options
in order to the configuration made of the two durations and returns an empty
store with that configuration. -/
def New (V : Type) (expiry eviction : Int) (options : List inmem.Option) : Store V :=
  let cfg : Config := options.foldl (fun c o => o c) ⟨expiry, eviction⟩
  { table := fun _ => none, defaultExpiry := cfg.defaultExpiry, sweepInterval := cfg.sweepInterval }

end inmem

/-! ## `data/cache/cache.go` -/

namespace cache

/-- The Go types that occur in the signatures of the `Cache` interface. -/
inductive GoType where
  | string
  | emptyInterface
  | error
  | bool
  | Duration
  deriving DecidableEq, Repr

/-- A method of an interface: its name, parameter types and result types. -/
structure Method where
  name : String
  params : List GoType
  results : List GoType
  deriving DecidableEq, Repr

/-- The method set of `type Cache interface` (cache.go, lines 9 to 30), in the
order of the source. -/
def Cache : List Method :=
  [ { name := "Set", params := [.string, .emptyInterface], results := [] },
    { name := "Add", params := [.string, .emptyInterface], results := [.error] },
    { name := "Replace", params := [.string, .emptyInterface], results := [.error] },
    { name := "SetWithDuration", params := [.string, .emptyInterface, .Duration],
      results := [] },
    { name := "Get", params := [.string], results := [.emptyInterface, .bool] },
    { name := "Delete", params := [.string], results := [] } ]

/-- The names of the operations on the entry of one key that the comments of
cache.go (lines 10 to 29) describe. -/
def keyOperations : List String :=
  ["Set", "Add", "Replace", "SetWithDuration", "Get", "Delete"]

/-- Whether a method is an operation on the entry of one key: it has the name
of one and its first parameter is the key, a `string`. A shutdown, which acts
on the store as a whole, is no such method. -/
def Method.isKeyOperation (m : Method) : Bool :=
  keyOperations.contains m.name && (m.params.head? == some GoType.string)

/-- A call of one of the six methods of the `Cache` interface (cache.go,
lines 9 to 30), with its arguments. -/
inductive Call (V : Type) where
  | Set (k : String) (val : V)
  | Add (k : String) (val : V)
  | Replace (k : String) (val : V)
  | SetWithDuration (k : String) (val : V) (expiration : Int)
  | Get (k : String)
  | Delete (k : String)

/-- What a method of the `Cache` interface returns: nothing, an `error`, or
the pair `(val, found)`. -/
inductive Reply (V : Type) where
  | nothing
  | error (err : Option inmem.Error)
  | value (val : Option V) (found : Bool)

/-- The Go result types of a reply. -/
def Reply.types {V : Type} : Reply V → List GoType
  | .nothing => []
  | .error _ => [.error]
  | .value _ _ => [.emptyInterface, .bool]

/-- The method name of a call. -/
def Call.name {V : Type} : Call V → String
  | .Set _ _ => "Set"
  | .Add _ _ => "Add"
  | .Replace _ _ => "Replace"
  | .SetWithDuration _ _ _ => "SetWithDuration"
  | .Get _ => "Get"
  | .Delete _ => "Delete"

/-- The key a call is about. -/
def Call.key {V : Type} : Call V → String
  | .Set k _ => k
  | .Add k _ => k
  | .Replace k _ => k
  | .SetWithDuration k _ _ => k
  | .Get k => k
  | .Delete k => k

/-- Whether the call is a write or a delete (every method but `Get`). -/
def Call.writes {V : Type} : Call V → Bool
  | .Get _ => false
  | _ => true

/-- Dispatch of an interface call at clock reading `now` on the in-memory
store: the store afterwards and the reply. -/
def exec {V : Type} (s : inmem.Store V) (now : Int) : Call V → inmem.Store V × Reply V
  | .Set k val => (s.Set now k val, .nothing)
  | .Add k val => ((s.Add now k val).1, .error (s.Add now k val).2)
  | .Replace k val => ((s.Replace now k val).1, .error (s.Replace now k val).2)
  | .SetWithDuration k val ttl => (s.SetWithDuration now k val ttl, .nothing)
  | .Get k => (s, .value (s.Get now k).1 (s.Get now k).2)
  | .Delete k => (s.Delete k, .nothing)

/-- Something that happens to the store: a call of an interface method, or a
firing of the background sweep, each at a clock reading. -/
inductive Event (V : Type) where
  | call (now : Int) (c : Call V)
  | sweep (now : Int)

/-- The clock reading of an event. -/
def Event.time {V : Type} : Event V → Int
  | .call now _ => now
  | .sweep now => now

/-- Whether the event is a write or a delete of key `k`. -/
def Event.writesKey {V : Type} (k : String) : Event V → Bool
  | .call _ c => c.writes && decide (c.key = k)
  | .sweep _ => false

/-- The store after an event. -/
def step {V : Type} (s : inmem.Store V) : Event V → inmem.Store V
  | .call now c => (exec s now c).1
  | .sweep now => s.sweep now

/-- The store after a sequence of events, oldest first. -/
def run {V : Type} (s : inmem.Store V) (evs : List (Event V)) : inmem.Store V :=
  evs.foldl step s

/-- `NewInMemoryCache` (cache.go, lines 32 to 38):
`return inmem.New(expiry, eviction, options...), nil`. The constructor
`inmem.New` of the absent package is the parameter `New`; the result is the
pair of the cache and the error. -/
def NewInMemoryCache {C Opt : Type} (New : Int → Int → List Opt → C)
    (expiry eviction : Int) (options : List Opt) : C × Option inmem.Error :=
  (New expiry eviction options, none)

end cache

/-! ## `kit/endpoint` -/

namespace endpoint

/-- The type `endpoint.Endpoint`, as handler.go uses it (lines 123 to 128):
`func(ctx context.Context, req interface{}) (interface{}, error)`. A Go
function may read and change the world around it, so an endpoint takes the
world `W` before the call and returns the world after it next to its two
results. `Val` is `interface{}`, `Err` is `error` (`nil` included). -/
abbrev Endpoint (W Ctx Val Err : Type) : Type := Ctx → Val → W → (Val × Err) × W

/-- The type `endpoint.Middleware`: a function from endpoint to endpoint, as
`NoopMiddleware` is one (handler.go, line 122). Endpoints and middlewares are
functions that can be called: Go's `nil` function, whose call panics, is not a
value of these types. Where handler.go stores or receives a middleware that
may be `nil`, it is an `Option` of a middleware. -/
abbrev Middleware (W Ctx Val Err : Type) : Type :=
  Endpoint W Ctx Val Err → Endpoint W Ctx Val Err

/-- Modelled from the spec: `endpoint.Chain` of package `kit/endpoint`, which
is absent, defined as in go-kit:
`for i := len(others) - 1; i >= 0; i-- { next = others[i](next) }`
and then `return outer(next)`. -/
def Chain {W Ctx Val Err : Type} (outer : Middleware W Ctx Val Err)
    (others : List (Middleware W Ctx Val Err)) : Middleware W Ctx Val Err :=
  fun next => outer (others.reverse.foldl (fun nxt mw => mw nxt) next)

/-- An endpoint that writes every call it receives (context and request) to a
log kept next to the world, and then behaves as `next`. -/
def logged {W Ctx Val Err : Type} (next : Endpoint W Ctx Val Err) :
    Endpoint (W × List (Ctx × Val)) Ctx Val Err :=
  fun ctx req w => ((next ctx req w.1).1, ((next ctx req w.1).2, w.2 ++ [(ctx, req)]))

end endpoint

/-! ## `kit/transport/http/handler.go` -/

namespace http

/-- The declarations handler.go uses and does not contain: the types of
endpoints, the function types of package `http` declared in other files, the
go-kit server and its options, `net/http`'s handler, the filter `Chain` and
the two default codecs. A Go function value that may be `nil` is an `Option`. -/
structure Lib where
  World : Type
  Context : Type
  Value : Type
  Err : Type
  BeforeFunc : Type
  AfterFunc : Type
  Encoder : Type
  Decoder : Type
  ErrorEncoder : Type
  ErrorHandler : Type
  Filter : Type
  ServerOption : Type
  HttpHandler : Type
  ServerBefore : Option BeforeFunc → ServerOption
  ServerAfter : Option AfterFunc → ServerOption
  ServerErrorEncoder : Option ErrorEncoder → ServerOption
  ServerErrorHandler : Option ErrorHandler → ServerOption
  populateRequestContext : BeforeFunc
  NewServer : endpoint.Endpoint World Context Value Err → Option Decoder → Option Encoder →
    List ServerOption → HttpHandler
  Chain : HttpHandler → List Filter → HttpHandler
  newDefaultEncoder : Option Encoder
  newDefaultDecoder : Option Decoder

/-- The type `Handler` (handler.go, line 24): `Handler endpoint.Endpoint`. -/
abbrev Handler (L : Lib) : Type := endpoint.Endpoint L.World L.Context L.Value L.Err

/-- The type `Middleware` (handler.go, line 27): `Middleware endpoint.Middleware`. -/
abbrev Middleware (L : Lib) : Type := endpoint.Middleware L.World L.Context L.Value L.Err

/-- The struct `handler` (handler.go, lines 30 to 47). The embedded
`net_http.Handler` and the field `endpoint` are `nil` until set; `filters` is
a slice that is compared with `nil`, so it is an `Option` of a list. -/
structure handler (L : Lib) where
  Handler : Option L.HttpHandler
  endpoint : Option (endpoint.Endpoint L.World L.Context L.Value L.Err)
  befores : List (Option L.BeforeFunc)
  afters : List (Option L.AfterFunc)
  encoder : Option L.Encoder
  decoder : Option L.Decoder
  errorEncoder : Option L.ErrorEncoder
  errorhandler : Option L.ErrorHandler
  middlewares : List (Option (Middleware L))
  filters : Option (List L.Filter)
  options : List L.ServerOption

/-- The type `HandlerOption` (handler.go, line 50): `func(*handler)`; the
function changes the handler it is given, here it returns the changed one. -/
abbrev HandlerOption (L : Lib) : Type := handler L → handler L

/-- Go's `append(s, x)` on a slice that may be `nil`: the result is never `nil`. -/
def appendSlice {α : Type} (s : Option (List α)) (x : α) : Option (List α) :=
  match s with
  | none => some [x]
  | some l => some (l ++ [x])

/-- `HandlerWithBeforeFunc` (handler.go, lines 54 to 59). -/
def HandlerWithBeforeFunc (L : Lib) (fn : Option L.BeforeFunc) : HandlerOption L :=
  fun h => { h with befores := h.befores ++ [fn], options := h.options ++ [L.ServerBefore fn] }

/-- `HandlerWithAfterFunc` (handler.go, lines 62 to 67). -/
def HandlerWithAfterFunc (L : Lib) (fn : Option L.AfterFunc) : HandlerOption L :=
  fun h => { h with afters := h.afters ++ [fn], options := h.options ++ [L.ServerAfter fn] }

/-- `HandlerWithEncoder` (handler.go, lines 70 to 72). -/
def HandlerWithEncoder (L : Lib) (fn : Option L.Encoder) : HandlerOption L :=
  fun h => { h with encoder := fn }

/-- `HandlerWithDecoder` (handler.go, lines 75 to 77). -/
def HandlerWithDecoder (L : Lib) (fn : Option L.Decoder) : HandlerOption L :=
  fun h => { h with decoder := fn }

/-- `HandlerWithErrorEncoder` (handler.go, lines 81 to 88). -/
def HandlerWithErrorEncoder (L : Lib) (fn : Option L.ErrorEncoder) : HandlerOption L :=
  fun h => { h with errorEncoder := fn, options := h.options ++ [L.ServerErrorEncoder fn] }

/-- `HandlerWithErrorhandler` (handler.go, lines 91 to 96). -/
def HandlerWithErrorhandler (L : Lib) (fn : Option L.ErrorHandler) : HandlerOption L :=
  fun h => { h with errorhandler := fn, options := h.options ++ [L.ServerErrorHandler fn] }

/-- `HandlerWithMiddleware` (handler.go, lines 99 to 103). -/
def HandlerWithMiddleware (L : Lib) (fn : Option (Middleware L)) : HandlerOption L :=
  fun h => { h with middlewares := h.middlewares ++ [fn] }

/-- `HandlerWithEndpointMiddleware` (handler.go, lines 107 to 111). -/
def HandlerWithEndpointMiddleware (L : Lib)
    (fn : Option (endpoint.Middleware L.World L.Context L.Value L.Err)) : HandlerOption L :=
  fun h => { h with middlewares := h.middlewares ++ [fn] }

/-- `HandlerWithFilter` (handler.go, lines 114 to 118). -/
def HandlerWithFilter (L : Lib) (f : L.Filter) : HandlerOption L :=
  fun h => { h with filters := appendSlice h.filters f }

/-- `NoopMiddleware` (handler.go, lines 122 to 129): the returned endpoint is
`func(ctx, req) { return next(ctx, req) }`. -/
def NoopMiddleware {W Ctx Val Err : Type} (next : endpoint.Endpoint W Ctx Val Err) :
    endpoint.Endpoint W Ctx Val Err :=
  fun ctx req => next ctx req

/-- `Wrap` (handler.go, lines 132 to 145): the loop appends each middleware,
converted, to `emws`; then `endpoint.Chain(NoopMiddleware, emws...)` is
applied to the handler. -/
def Wrap {W Ctx Val Err : Type} (hn : endpoint.Endpoint W Ctx Val Err)
    (mws : List (endpoint.Middleware W Ctx Val Err)) : endpoint.Endpoint W Ctx Val Err :=
  let emws : List (endpoint.Middleware W Ctx Val Err) := mws.foldl (fun acc mw => acc ++ [mw]) []
  let newmw := endpoint.Chain NoopMiddleware emws
  newmw hn

/-- The functions of a slice of function values, when none of them is `nil`;
`none` when one is `nil`. -/
def callable {α : Type} : List (Option α) → Option (List α)
  | [] => some []
  | none :: _ => none
  | some x :: xs =>
    match callable xs with
    | some l => some (x :: l)
    | none => none

/-- `newHandler` (handler.go, lines 148 to 193). The result is `none` when the
function panics: `Wrap(fn, hn.middlewares...)` (line 180) calls every
middleware of the slice, in `endpoint.Chain`, and the call of a `nil`
middleware panics before `newHandler` returns. -/
def newHandler (L : Lib) (fn : Handler L) (options : List (HandlerOption L)) :
    Option (handler L) :=
  let hn : handler L :=
    { Handler := none
      endpoint := none
      encoder := none
      decoder := none
      errorEncoder := none
      errorhandler := none
      middlewares := []
      befores := []
      afters := []
      filters := none
      options := [L.ServerBefore (some L.populateRequestContext)] }
  let hn := options.foldl (fun h o => o h) hn
  let hn := match hn.encoder with
    | none => { hn with encoder := L.newDefaultEncoder }
    | some _ => hn
  let hn := match hn.decoder with
    | none => { hn with decoder := L.newDefaultDecoder }
    | some _ => hn
  match callable hn.middlewares with
  | none => none
  | some mws =>
    let server := L.NewServer (Wrap fn mws) hn.decoder hn.encoder hn.options
    let server := match hn.filters with
      | some fs => L.Chain server fs
      | none => server
    some { hn with Handler := some server }

/-- The handler `newHandler` starts from (handler.go, lines 149 to 161). -/
def initialHandler (L : Lib) : handler L :=
  { Handler := none
    endpoint := none
    encoder := none
    decoder := none
    errorEncoder := none
    errorhandler := none
    middlewares := []
    befores := []
    afters := []
    filters := none
    options := [L.ServerBefore (some L.populateRequestContext)] }

/-- The handler of `newHandler` when it reaches line 177: the options applied
in order and the two default codecs supplied (handler.go, lines 163 to 175). -/
def configuredHandler (L : Lib) (options : List (HandlerOption L)) : handler L :=
  let hn := options.foldl (fun h o => o h) (initialHandler L)
  let hn := match hn.encoder with
    | none => { hn with encoder := L.newDefaultEncoder }
    | some _ => hn
  match hn.decoder with
  | none => { hn with decoder := L.newDefaultDecoder }
  | some _ => hn

/-- An option as a caller outside the package can build it: one of the nine
exported `HandlerWith*` constructors with its argument, which may be `nil`
where it is a function. -/
inductive Built (L : Lib) where
  | BeforeFunc (fn : Option L.BeforeFunc)
  | AfterFunc (fn : Option L.AfterFunc)
  | Encoder (fn : Option L.Encoder)
  | Decoder (fn : Option L.Decoder)
  | ErrorEncoder (fn : Option L.ErrorEncoder)
  | Errorhandler (fn : Option L.ErrorHandler)
  | Middleware (fn : Option (Middleware L))
  | EndpointMiddleware (fn : Option (endpoint.Middleware L.World L.Context L.Value L.Err))
  | Filter (f : L.Filter)

/-- The `HandlerOption` a built option stands for. -/
def Built.option {L : Lib} : Built L → HandlerOption L
  | .BeforeFunc fn => HandlerWithBeforeFunc L fn
  | .AfterFunc fn => HandlerWithAfterFunc L fn
  | .Encoder fn => HandlerWithEncoder L fn
  | .Decoder fn => HandlerWithDecoder L fn
  | .ErrorEncoder fn => HandlerWithErrorEncoder L fn
  | .Errorhandler fn => HandlerWithErrorhandler L fn
  | .Middleware fn => HandlerWithMiddleware L fn
  | .EndpointMiddleware fn => HandlerWithEndpointMiddleware L fn
  | .Filter f => HandlerWithFilter L f

/-- Whether the built option is `HandlerWithMiddleware(nil)` or
`HandlerWithEndpointMiddleware(nil)`. -/
def Built.passesNilMiddleware {L : Lib} : Built L → Bool
  | .Middleware none => true
  | .EndpointMiddleware none => true
  | _ => false

/-- The function passed to the last `HandlerWithEncoder` option of the list:
`none` when the list has no such option, `some none` when the last one passed
`nil`. -/
def lastEncoder {L : Lib} : List (Built L) → Option (Option L.Encoder)
  | [] => none
  | b :: bs =>
    match lastEncoder bs with
    | some fn => some fn
    | none =>
      match b with
      | .Encoder fn => some fn
      | _ => none

/-- The function passed to the last `HandlerWithDecoder` option of the list. -/
def lastDecoder {L : Lib} : List (Built L) → Option (Option L.Decoder)
  | [] => none
  | b :: bs =>
    match lastDecoder bs with
    | some fn => some fn
    | none =>
      match b with
      | .Decoder fn => some fn
      | _ => none

/-- The encoder the handler is said to end up with: the last one passed when
that is not `nil`, the default one otherwise. -/
def expectedEncoder {L : Lib} (bs : List (Built L)) : Option L.Encoder :=
  match lastEncoder bs with
  | some (some fn) => some fn
  | _ => L.newDefaultEncoder

/-- The decoder the handler is said to end up with. -/
def expectedDecoder {L : Lib} (bs : List (Built L)) : Option L.Decoder :=
  match lastDecoder bs with
  | some (some fn) => some fn
  | _ => L.newDefaultDecoder

/-- A small instance of the absent declarations: function values are numbers,
a server option is the number of the function it carries, the server handler
is the number of options it was given. -/
@[reducible] def exampleLib : Lib where
  World := Nat
  Context := Unit
  Value := Nat
  Err := Bool
  BeforeFunc := Nat
  AfterFunc := Nat
  Encoder := Nat
  Decoder := Nat
  ErrorEncoder := Nat
  ErrorHandler := Nat
  Filter := Nat
  ServerOption := Nat
  HttpHandler := Nat
  ServerBefore := fun fn => fn.getD 0
  ServerAfter := fun fn => fn.getD 0
  ServerErrorEncoder := fun fn => fn.getD 0
  ServerErrorHandler := fun fn => fn.getD 0
  populateRequestContext := 1
  NewServer := fun _ _ _ opts => opts.length
  Chain := fun h fs => h + fs.length
  newDefaultEncoder := some 100
  newDefaultDecoder := some 200

/-- An endpoint of the small instance: it answers the request plus one, with
no error, and counts the call in the world. -/
def exampleHandler : Handler exampleLib :=
  fun _ req w => ((req + 1, false), w + 1)

/-- A list of built options of the small instance: the last encoder option
passes `nil`, the last decoder option passes the function `8`, the one
middleware adds one to the response. -/
def exampleOptions : List (Built exampleLib) :=
  [Built.Encoder (some 7), Built.Decoder (some 8), Built.Filter 3,
    Built.Middleware (some (fun next ctx req w => (((next ctx req w).1.1 + 1,
      (next ctx req w).1.2), (next ctx req w).2))),
    Built.Encoder none]

end http

/-! ## Properties of the cache -/

namespace cache

/-- A write under another key leaves the entry of `k` as it is. -/
theorem table_setWithDuration_of_ne {V : Type} (s : inmem.Store V) (now : Int) (k k' : String)
    (val : V) (ttl : Int) (h : k' ≠ k) :
    (s.SetWithDuration now k' val ttl).table k = s.table k := by
  have h' : ¬ k = k' := fun e => h e.symm
  simp [inmem.Store.SetWithDuration, h']

/-- A write under `k` stores the new entry under `k`. -/
theorem table_setWithDuration_self {V : Type} (s : inmem.Store V) (now : Int) (k : String)
    (val : V) (ttl : Int) :
    (s.SetWithDuration now k val ttl).table k = some ⟨k, val, inmem.expiry now ttl⟩ := by
  simp [inmem.Store.SetWithDuration]

/-- A call that is not a write or delete of `k` leaves the entry of `k` as it is. -/
theorem table_exec_of_not_writesKey {V : Type} (s : inmem.Store V) (now : Int) (c : Call V)
    (k : String) (h : (Event.call now c).writesKey k = false) :
    (exec s now c).1.table k = s.table k := by
  cases c with
  | Get k' => rfl
  | Set k' val =>
    have hk : k' ≠ k := by simpa [Event.writesKey, Call.writes, Call.key] using h
    exact table_setWithDuration_of_ne s now k k' val _ hk
  | SetWithDuration k' val ttl =>
    have hk : k' ≠ k := by simpa [Event.writesKey, Call.writes, Call.key] using h
    exact table_setWithDuration_of_ne s now k k' val _ hk
  | Add k' val =>
    have hk : k' ≠ k := by simpa [Event.writesKey, Call.writes, Call.key] using h
    show (s.Add now k' val).1.table k = s.table k
    unfold inmem.Store.Add
    split
    · rfl
    · exact table_setWithDuration_of_ne s now k k' val _ hk
  | Replace k' val =>
    have hk : k' ≠ k := by simpa [Event.writesKey, Call.writes, Call.key] using h
    show (s.Replace now k' val).1.table k = s.table k
    unfold inmem.Store.Replace
    split
    · exact table_setWithDuration_of_ne s now k k' val _ hk
    · rfl
  | Delete k' =>
    have hk : k' ≠ k := by simpa [Event.writesKey, Call.writes, Call.key] using h
    have hk' : ¬ k = k' := fun e => hk e.symm
    simp [exec, inmem.Store.Delete, hk']

/-- An event that is not a write or delete of `k` keeps the entry of `k` or,
when it is a sweep, removes it. -/
theorem table_step_same_or_none {V : Type} (s : inmem.Store V) (ev : Event V) (k : String)
    (h : ev.writesKey k = false) :
    (step s ev).table k = s.table k ∨ (step s ev).table k = none := by
  cases ev with
  | call now c => exact Or.inl (table_exec_of_not_writesKey s now c k h)
  | sweep now =>
    show (s.sweep now).table k = s.table k ∨ (s.sweep now).table k = none
    simp only [inmem.Store.sweep]
    cases hk : s.table k with
    | none => simp
    | some e =>
      by_cases hs : e.sweepable now = true
      · simp [hs]
      · simp [hs]

/-- An event no later than `T` that is not a write or delete of `k` keeps an
entry of `k` that is live at `T`. -/
theorem table_step_of_live {V : Type} (s : inmem.Store V) (ev : Event V) (k : String)
    (e : inmem.Entry V) (T : Int) (h : ev.writesKey k = false) (hk : s.table k = some e)
    (hT : ev.time ≤ T) (hl : e.live T = true) : (step s ev).table k = some e := by
  cases ev with
  | call now c => rw [← hk]; exact table_exec_of_not_writesKey s now c k h
  | sweep now =>
    show (s.sweep now).table k = some e
    have hns : e.sweepable now = false := by
      unfold inmem.Entry.sweepable
      unfold inmem.Entry.live at hl
      cases hx : e.expiresAt with
      | none => rfl
      | some x =>
        rw [hx] at hl
        have h1 : T < x := by simpa using hl
        have h2 : now ≤ T := hT
        simp only [decide_eq_false_iff_not, not_lt]
        omega
    simp [inmem.Store.sweep, hk, hns]

/-- Events that are no writes or deletes of `k` and are no later than `T`
keep an entry of `k` that is live at `T`. -/
theorem table_run_of_live {V : Type} (evs : List (Event V)) (s : inmem.Store V) (k : String)
    (e : inmem.Entry V) (T : Int) (h : ∀ ev ∈ evs, ev.writesKey k = false)
    (hk : s.table k = some e) (hT : ∀ ev ∈ evs, ev.time ≤ T) (hl : e.live T = true) :
    (run s evs).table k = some e := by
  induction evs generalizing s with
  | nil => exact hk
  | cons ev evs ih =>
    have h0 := table_step_of_live s ev k e T (h ev (List.mem_cons_self _ _)) hk
      (hT ev (List.mem_cons_self _ _)) hl
    exact ih (step s ev) (fun x hx => h x (List.mem_cons_of_mem _ hx)) h0
      (fun x hx => hT x (List.mem_cons_of_mem _ hx))

/-- Events that are no writes or deletes of `k` leave the entry of `k` as it
was or remove it. -/
theorem table_run_same_or_none {V : Type} (evs : List (Event V)) (s : inmem.Store V)
    (k : String) (h : ∀ ev ∈ evs, ev.writesKey k = false) :
    (run s evs).table k = s.table k ∨ (run s evs).table k = none := by
  induction evs generalizing s with
  | nil => exact Or.inl rfl
  | cons ev evs ih =>
    have hrest : ∀ x ∈ evs, x.writesKey k = false := fun x hx => h x (List.mem_cons_of_mem _ hx)
    rcases table_step_same_or_none s ev k (h ev (List.mem_cons_self _ _)) with h0 | h0
    · rcases ih (step s ev) hrest with h1 | h1
      · exact Or.inl (h1.trans h0)
      · exact Or.inr h1
    · rcases ih (step s ev) hrest with h1 | h1
      · exact Or.inr (h1.trans h0)
      · exact Or.inr h1

/-- C1. After `SetWithDuration(k, v, ttl)` at time `t0` with `ttl > 0`, and
after any events that are no other write or delete of `k` (sweeps, reads,
operations on other keys): `Get(k)` at time `t0 + t` returns `(v, true)` when
`t < ttl` (the events being no later than the `Get`), and `(nil, false)` when
`t ≥ ttl`, whether or not a sweep has run. -/
theorem setWithDuration_get_visibility {V : Type} (s : inmem.Store V) (t0 : Int) (k : String)
    (v : V) (ttl : Int) (httl : 0 < ttl) (evs : List (Event V))
    (hw : ∀ ev ∈ evs, ev.writesKey k = false) (t : Int) :
    (t < ttl → (∀ ev ∈ evs, ev.time ≤ t0 + t) →
        (run (s.SetWithDuration t0 k v ttl) evs).Get (t0 + t) k = (some v, true)) ∧
      (ttl ≤ t → (run (s.SetWithDuration t0 k v ttl) evs).Get (t0 + t) k = (none, false)) := by
  have hexp : inmem.expiry t0 ttl = some (t0 + ttl) := by
    simp [inmem.expiry, not_le.mpr httl]
  have hset : (s.SetWithDuration t0 k v ttl).table k = some ⟨k, v, some (t0 + ttl)⟩ := by
    rw [table_setWithDuration_self, hexp]
  constructor
  · intro ht hT
    have hl : (⟨k, v, some (t0 + ttl)⟩ : inmem.Entry V).live (t0 + t) = true := by
      simp [inmem.Entry.live, ht]
    have hrun := table_run_of_live evs _ k _ (t0 + t) hw hset hT hl
    simp [inmem.Store.Get, hrun, hl]
  · intro ht
    have hl : (⟨k, v, some (t0 + ttl)⟩ : inmem.Entry V).live (t0 + t) = false := by
      simp [inmem.Entry.live, ht]
    rcases table_run_same_or_none evs (s.SetWithDuration t0 k v ttl) k hw with h | h
    · rw [hset] at h
      simp [inmem.Store.Get, h, hl]
    · simp [inmem.Store.Get, h]

/-- The visibility property at the scenario of the specification: expiry 50,
a sweep at 10, a write of another key at 15, a sweep at 20; `Get` at 20 finds
the value, and after a further sweep at 60 `Get` at 70 finds nothing. -/
theorem setWithDuration_get_visibility_witness :
    (0 : Int) < 50 ∧
      (∀ ev ∈ [Event.sweep 10, Event.call 15 (Call.Set "b" (2 : Nat)), Event.sweep 20],
        ev.writesKey "a" = false) ∧
      (run ((NewInMemoryCache (inmem.New Nat) 50 10 []).1.SetWithDuration 0 "a" 1 50)
        [Event.sweep 10, Event.call 15 (Call.Set "b" (2 : Nat)), Event.sweep 20]).Get
          20 "a" = (some 1, true) ∧
      (run ((NewInMemoryCache (inmem.New Nat) 50 10 []).1.SetWithDuration 0 "a" 1 50)
        [Event.sweep 10, Event.call 15 (Call.Set "b" (2 : Nat)), Event.sweep 60]).Get
          70 "a" = (none, false) :=
  ⟨by decide, by decide,
    (setWithDuration_get_visibility (NewInMemoryCache (inmem.New Nat) 50 10 []).1 0 "a" 1 50
      (by decide) [Event.sweep 10, Event.call 15 (Call.Set "b" (2 : Nat)), Event.sweep 20]
      (by decide) 20).1 (by decide) (by decide),
    (setWithDuration_get_visibility (NewInMemoryCache (inmem.New Nat) 50 10 []).1 0 "a" 1 50
      (by decide) [Event.sweep 10, Event.call 15 (Call.Set "b" (2 : Nat)), Event.sweep 60]
      (by decide) 70).2 (by decide)⟩

/-- C2. `Add(k, v)` at time `now` returns `ErrKeyExists` and leaves the store
unchanged if and only if a live entry exists for `k`; if `k` is absent, or its
entry has expired and is still in the table, `Add` returns `nil` and a `Get(k)`
right after it returns `(v, true)`, as does every later `Get(k)` within the
default expiry. -/
theorem add_keyExists_iff_live {V : Type} (s : inmem.Store V) (now : Int) (k : String) (v : V) :
    (((s.Add now k v).2 = some inmem.Error.ErrKeyExists ∧ (s.Add now k v).1 = s) ↔
        ∃ e, s.table k = some e ∧ e.live now = true) ∧
      ((s.Add now k v).2 = some inmem.Error.ErrKeyExists ↔
        ∃ e, s.table k = some e ∧ e.live now = true) ∧
      ((s.table k = none ∨ ∃ e, s.table k = some e ∧ e.live now = false) →
        (s.Add now k v).2 = none ∧ (s.Add now k v).1.Get now k = (some v, true) ∧
          ∀ t, now ≤ t → (s.defaultExpiry ≤ 0 ∨ t < now + s.defaultExpiry) →
            (s.Add now k v).1.Get t k = (some v, true)) := by
  have hlive : s.hasLive now k = true ↔ ∃ e, s.table k = some e ∧ e.live now = true := by
    unfold inmem.Store.hasLive
    cases s.table k with
    | none => simp
    | some e => simp
  have hget : ∀ t, (s.defaultExpiry ≤ 0 ∨ t < now + s.defaultExpiry) →
      (s.Set now k v).Get t k = (some v, true) := by
    intro t ht
    have hl : (⟨k, v, inmem.expiry now s.defaultExpiry⟩ : inmem.Entry V).live t = true := by
      unfold inmem.Entry.live inmem.expiry
      by_cases hd : s.defaultExpiry ≤ 0
      · simp [hd]
      · rcases ht with ht | ht
        · exact absurd ht hd
        · simp [hd, ht]
    simp [inmem.Store.Get, inmem.Store.Set, table_setWithDuration_self, hl]
  by_cases h : s.hasLive now k = true
  · have hadd : s.Add now k v = (s, some inmem.Error.ErrKeyExists) := by
      simp [inmem.Store.Add, h]
    have hex := hlive.mp h
    refine ⟨⟨fun _ => hex, fun _ => by simp [hadd]⟩, ⟨fun _ => hex, fun _ => by simp [hadd]⟩, ?_⟩
    rintro (h0 | ⟨e, he, hel⟩)
    · obtain ⟨e, he, _⟩ := hex
      rw [h0] at he
      cases he
    · obtain ⟨e', he', hel'⟩ := hex
      rw [he] at he'
      cases he'
      rw [hel] at hel'
      cases hel'
  · have hadd : s.Add now k v = (s.Set now k v, none) := by
      simp [inmem.Store.Add, h]
    have hnex : ¬ ∃ e, s.table k = some e ∧ e.live now = true := fun hex => h (hlive.mpr hex)
    refine ⟨⟨fun hh => ?_, fun hex => absurd hex hnex⟩,
      ⟨fun hh => ?_, fun hex => absurd hex hnex⟩, fun _ => ?_⟩
    · rw [hadd] at hh
      cases hh.1
    · rw [hadd] at hh
      cases hh
    · rw [hadd]
      refine ⟨rfl, hget now ?_, fun t _ ht => hget t ht⟩
      by_cases hd : s.defaultExpiry ≤ 0
      · exact Or.inl hd
      · exact Or.inr (by omega)

/-- The scenario "Add after expiry": `a` is set for 1 at time 0 and not swept;
at time 5 a live entry is missing, `Add("a", 2)` returns nil and `Get("a")`
returns `(2, true)`; a second `Add("a", 3)` then returns `ErrKeyExists`. -/
theorem add_keyExists_iff_live_witness :
    (∃ e, ((NewInMemoryCache (inmem.New Nat) 50 10 []).1.SetWithDuration 0 "a" 1 1).table "a" =
        some e ∧ e.live 5 = false) ∧
      (((NewInMemoryCache (inmem.New Nat) 50 10 []).1.SetWithDuration 0 "a" 1 1).Add 5 "a"
        2).2 = none ∧
      (((NewInMemoryCache (inmem.New Nat) 50 10 []).1.SetWithDuration 0 "a" 1 1).Add 5 "a"
        2).1.Get 5 "a" = (some 2, true) ∧
      ((((NewInMemoryCache (inmem.New Nat) 50 10 []).1.SetWithDuration 0 "a" 1 1).Add 5 "a"
        2).1.Add 5 "a" 3).2 = some inmem.Error.ErrKeyExists :=
  ⟨⟨_, rfl, by decide⟩,
    ((add_keyExists_iff_live ((NewInMemoryCache (inmem.New Nat) 50 10 []).1.SetWithDuration
      0 "a" 1 1) 5 "a" 2).2.2 (Or.inr ⟨_, rfl, by decide⟩)).1,
    ((add_keyExists_iff_live ((NewInMemoryCache (inmem.New Nat) 50 10 []).1.SetWithDuration
      0 "a" 1 1) 5 "a" 2).2.2 (Or.inr ⟨_, rfl, by decide⟩)).2.1,
    (add_keyExists_iff_live (((NewInMemoryCache (inmem.New Nat) 50 10 []).1.SetWithDuration
      0 "a" 1 1).Add 5 "a" 2).1 5 "a" 3).2.1.mpr ⟨_, rfl, by decide⟩⟩

/-- C3, as the claim states it, at a negative sweep interval: the constructor
returns a nil error. -/
theorem newInMemoryCache_negative_eviction_nil_error :
    (-1 : Int) < 0 ∧ (NewInMemoryCache (inmem.New Nat) 50 (-1) []).2 = none :=
  ⟨by decide, rfl⟩

/-- C3, amended. `NewInMemoryCache` validates nothing and never fails: for
every expiry, every sweep interval (negative ones included) and every list of
options, the error it returns is nil. -/
theorem newInMemoryCache_error_nil {C Opt : Type} (New : Int → Int → List Opt → C)
    (expiry eviction : Int) (options : List Opt) :
    (NewInMemoryCache New expiry eviction options).2 = none :=
  rfl

/-- C4. For every expiry, every positive eviction interval and every list of
options, `NewInMemoryCache` returns a nil error and exactly the cache that
`inmem.New` made from the same expiry, eviction interval and option list. -/
theorem newInMemoryCache_eq_new {C Opt : Type} (New : Int → Int → List Opt → C)
    (expiry eviction : Int) (options : List Opt) :
    0 < eviction →
      NewInMemoryCache New expiry eviction options = (New expiry eviction options, none) ∧
        (NewInMemoryCache New expiry eviction options).1 = New expiry eviction options ∧
        (NewInMemoryCache New expiry eviction options).2 = none :=
  fun _ => ⟨rfl, rfl, rfl⟩

/-- The constructor at expiry 50, sweep interval 10 and one option that
doubles the sweep interval. -/
theorem newInMemoryCache_eq_new_witness :
    (0 : Int) < 10 ∧
      (NewInMemoryCache (inmem.New Nat) 50 10
          [fun c => { c with sweepInterval := 2 * c.sweepInterval }]).1 =
        inmem.New Nat 50 10 [fun c => { c with sweepInterval := 2 * c.sweepInterval }] :=
  ⟨by decide,
    (newInMemoryCache_eq_new (inmem.New Nat) 50 10
      [fun c => { c with sweepInterval := 2 * c.sweepInterval }] (by decide)).2.1⟩

/-- C5, as the claim states it, on the `Cache` interface: no method of the
handle is anything but an operation on one key, so none is a shutdown. -/
theorem cache_has_no_shutdown_method : ¬ ∃ m ∈ Cache, m.isKeyOperation = false := by
  decide

/-- C5, amended. The cache handle supports no explicit shutdown operation: the
`Cache` interface declares exactly six methods, each named `Set`, `Add`,
`Replace`, `SetWithDuration`, `Get` or `Delete` and each taking the key as its
first parameter; it declares no method that acts on the store as a whole. -/
theorem cache_methods_are_key_operations :
    Cache.length = 6 ∧
      ∀ m ∈ Cache,
        m.name ∈ ["Set", "Add", "Replace", "SetWithDuration", "Get", "Delete"] ∧
          m.params.head? = some GoType.string ∧ m.isKeyOperation = true := by
  decide

/-- C6. The method set of `Cache` is exactly `Set`, `Add`, `Replace`,
`SetWithDuration`, `Get` and `Delete`; a method returns an `error` if and only
if it is `Add` or `Replace`; `Get` returns a value and a found flag; `Set`,
`SetWithDuration` and `Delete` return nothing; every result is an `error`, an
`interface{}` value or a `bool`, and every call replies as its signature says. -/
theorem cache_public_surface :
    Cache.map Method.name = ["Set", "Add", "Replace", "SetWithDuration", "Get", "Delete"] ∧
      (∀ m ∈ Cache, GoType.error ∈ m.results ↔ (m.name = "Add" ∨ m.name = "Replace")) ∧
      (∀ m ∈ Cache, m.name = "Get" → m.results = [GoType.emptyInterface, GoType.bool]) ∧
      (∀ m ∈ Cache, (m.name = "Set" ∨ m.name = "SetWithDuration" ∨ m.name = "Delete") →
        m.results = []) ∧
      (∀ m ∈ Cache, ∀ t ∈ m.results,
        t = GoType.error ∨ t = GoType.emptyInterface ∨ t = GoType.bool) ∧
      (∀ (V : Type) (s : inmem.Store V) (now : Int) (c : Call V),
        ∃ m ∈ Cache, m.name = c.name ∧ m.results = (exec s now c).2.types) := by
  refine ⟨by decide, by decide, by decide, by decide, by decide, ?_⟩
  intro V s now c
  cases c <;> simp [Cache, Call.name, exec, Reply.types]

end cache

/-! ## Properties of the handler wrapping -/

namespace http

/-- The loop of `Wrap` copies the middlewares in order. -/
theorem foldl_append_singleton {α : Type} (l init : List α) :
    l.foldl (fun acc x => acc ++ [x]) init = init ++ l := by
  induction l generalizing init with
  | nil => simp
  | cons x xs ih => simp [ih]

/-- The loop of `endpoint.Chain` applies the last middleware first. -/
theorem chain_eq_foldr {W Ctx Val Err : Type} (outer : endpoint.Middleware W Ctx Val Err)
    (others : List (endpoint.Middleware W Ctx Val Err)) (next : endpoint.Endpoint W Ctx Val Err) :
    endpoint.Chain outer others next = outer (others.foldr (fun mw nxt => mw nxt) next) := by
  unfold endpoint.Chain
  rw [List.foldl_reverse]

/-- The options leave in `encoder` what the last `HandlerWithEncoder` passed. -/
theorem foldl_options_encoder {L : Lib} (bs : List (Built L)) (h : handler L) :
    ((bs.map Built.option).foldl (fun h o => o h) h).encoder =
      (lastEncoder bs).getD h.encoder := by
  induction bs generalizing h with
  | nil => rfl
  | cons b bs ih =>
    simp only [List.map_cons, List.foldl_cons, ih, lastEncoder]
    cases hl : lastEncoder bs with
    | some fn => rfl
    | none => cases b <;> rfl

/-- The options leave in `decoder` what the last `HandlerWithDecoder` passed. -/
theorem foldl_options_decoder {L : Lib} (bs : List (Built L)) (h : handler L) :
    ((bs.map Built.option).foldl (fun h o => o h) h).decoder =
      (lastDecoder bs).getD h.decoder := by
  induction bs generalizing h with
  | nil => rfl
  | cons b bs ih =>
    simp only [List.map_cons, List.foldl_cons, ih, lastDecoder]
    cases hl : lastDecoder bs with
    | some fn => rfl
    | none => cases b <;> rfl

/-- A slice without a `nil` in it has its list of callable functions. -/
theorem callable_eq_some_of_forall {α : Type} (l : List (Option α))
    (h : ∀ x ∈ l, x ≠ none) : ∃ fs, callable l = some fs := by
  induction l with
  | nil => exact ⟨[], rfl⟩
  | cons x xs ih =>
    obtain ⟨fs, hfs⟩ := ih (fun y hy => h y (List.mem_cons_of_mem _ hy))
    cases x with
    | none => exact absurd rfl (h none (List.mem_cons_self _ _))
    | some f => exact ⟨f :: fs, by simp [callable, hfs]⟩

/-- The options leave in `middlewares` the middlewares passed, after those
that were there. -/
theorem foldl_options_middlewares {L : Lib} (bs : List (Built L)) (h : handler L)
    (hb : ∀ b ∈ bs, b.passesNilMiddleware = false) (hh : ∀ x ∈ h.middlewares, x ≠ none) :
    ∀ x ∈ ((bs.map Built.option).foldl (fun h o => o h) h).middlewares, x ≠ none := by
  induction bs generalizing h with
  | nil => exact hh
  | cons b bs ih =>
    simp only [List.map_cons, List.foldl_cons]
    apply ih _ (fun x hx => hb x (List.mem_cons_of_mem _ hx))
    have hb0 := hb b (List.mem_cons_self _ _)
    cases b with
    | Middleware fn =>
      cases fn with
      | none => cases hb0
      | some f =>
        intro x hx
        simp only [Built.option, HandlerWithMiddleware, List.mem_append,
          List.mem_singleton] at hx
        rcases hx with hx | hx
        · exact hh x hx
        · rw [hx]; simp
    | EndpointMiddleware fn =>
      cases fn with
      | none => cases hb0
      | some f =>
        intro x hx
        simp only [Built.option, HandlerWithEndpointMiddleware, List.mem_append,
          List.mem_singleton] at hx
        rcases hx with hx | hx
        · exact hh x hx
        · rw [hx]; simp
    | BeforeFunc fn => exact hh
    | AfterFunc fn => exact hh
    | Encoder fn => exact hh
    | Decoder fn => exact hh
    | ErrorEncoder fn => exact hh
    | Errorhandler fn => exact hh
    | Filter f => exact hh

/-- The function `newHandler` in two steps: the handler configured up to line
175, then the server built around `Wrap`, which panics on a nil middleware. -/
theorem newHandler_eq (L : Lib) (fn : Handler L) (options : List (HandlerOption L)) :
    newHandler L fn options =
      match callable (configuredHandler L options).middlewares with
      | none => none
      | some mws =>
        some { configuredHandler L options with
          Handler := some (match (configuredHandler L options).filters with
            | some fs => L.Chain (L.NewServer (Wrap fn mws) (configuredHandler L options).decoder
                (configuredHandler L options).encoder (configuredHandler L options).options) fs
            | none => L.NewServer (Wrap fn mws) (configuredHandler L options).decoder
                (configuredHandler L options).encoder (configuredHandler L options).options) } :=
  rfl

/-- Supplying the default codecs leaves the middlewares as the options left
them. -/
theorem configuredHandler_middlewares (L : Lib) (options : List (HandlerOption L)) :
    (configuredHandler L options).middlewares =
      (options.foldl (fun h o => o h) (initialHandler L)).middlewares := by
  unfold configuredHandler
  simp only []
  split <;> split <;> rfl

/-- The encoder once the defaults are supplied. -/
theorem configuredHandler_encoder (L : Lib) (options : List (HandlerOption L)) :
    (configuredHandler L options).encoder =
      match (options.foldl (fun h o => o h) (initialHandler L)).encoder with
      | none => L.newDefaultEncoder
      | some fn => some fn := by
  unfold configuredHandler
  simp only []
  split <;> split <;> simp_all

/-- The decoder once the defaults are supplied. -/
theorem configuredHandler_decoder (L : Lib) (options : List (HandlerOption L)) :
    (configuredHandler L options).decoder =
      match (options.foldl (fun h o => o h) (initialHandler L)).decoder with
      | none => L.newDefaultDecoder
      | some fn => some fn := by
  unfold configuredHandler
  simp only []
  split <;> split <;> simp_all

/-- A handler `newHandler` returns has the codecs of the configured handler. -/
theorem newHandler_codecs (L : Lib) (fn : Handler L) (options : List (HandlerOption L))
    (hd : handler L) (hret : newHandler L fn options = some hd) :
    hd.encoder = (configuredHandler L options).encoder ∧
      hd.decoder = (configuredHandler L options).decoder := by
  rw [newHandler_eq] at hret
  split at hret
  · cases hret
  · cases hret
    exact ⟨rfl, rfl⟩

/-- The encoder of a handler `newHandler` returns. -/
theorem newHandler_encoder (L : Lib) (fn : Handler L) (bs : List (Built L)) (hd : handler L)
    (hret : newHandler L fn (bs.map Built.option) = some hd) :
    hd.encoder = expectedEncoder bs := by
  rw [(newHandler_codecs L fn _ hd hret).1, configuredHandler_encoder,
    foldl_options_encoder bs (initialHandler L)]
  unfold expectedEncoder
  cases lastEncoder bs with
  | none => rfl
  | some e => cases e <;> rfl

/-- The decoder of a handler `newHandler` returns. -/
theorem newHandler_decoder (L : Lib) (fn : Handler L) (bs : List (Built L)) (hd : handler L)
    (hret : newHandler L fn (bs.map Built.option) = some hd) :
    hd.decoder = expectedDecoder bs := by
  rw [(newHandler_codecs L fn _ hd hret).2, configuredHandler_decoder,
    foldl_options_decoder bs (initialHandler L)]
  unfold expectedDecoder
  cases lastDecoder bs with
  | none => rfl
  | some e => cases e <;> rfl

/-- With no `nil` middleware among the options `newHandler` returns a handler. -/
theorem newHandler_returns (L : Lib) (fn : Handler L) (bs : List (Built L))
    (hb : ∀ b ∈ bs, b.passesNilMiddleware = false) :
    ∃ hd, newHandler L fn (bs.map Built.option) = some hd := by
  have hm := foldl_options_middlewares bs (initialHandler L) hb (fun x hx => by cases hx)
  obtain ⟨fs, hfs⟩ := callable_eq_some_of_forall _ hm
  rw [newHandler_eq, configuredHandler_middlewares, hfs]
  exact ⟨_, rfl⟩

/-- C7. `NoopMiddleware` does nothing: `NoopMiddleware(next)(ctx, req)`
returns the response and error of `next(ctx, req)` and leaves the world as
`next(ctx, req)` leaves it; `next` is called exactly once, with the same `ctx`
and `req`. -/
theorem noopMiddleware_is_next {W Ctx Val Err : Type} (next : endpoint.Endpoint W Ctx Val Err)
    (ctx : Ctx) (req : Val) (w : W) (log : List (Ctx × Val)) :
    NoopMiddleware next ctx req w = next ctx req w ∧
      (NoopMiddleware (endpoint.logged next) ctx req (w, log)).1 = (next ctx req w).1 ∧
      (NoopMiddleware (endpoint.logged next) ctx req (w, log)).2 =
        ((next ctx req w).2, log ++ [(ctx, req)]) :=
  ⟨rfl, rfl, rfl⟩

/-- C8. `Wrap` makes the first middleware the outermost:
`Wrap(hn, m1, ..., mn)` is `NoopMiddleware(m1(m2(...mn(hn)...)))`, with
`endpoint.Chain` as in go-kit; with no middlewares `Wrap(hn)(ctx, req)` returns
what `hn(ctx, req)` returns. -/
theorem wrap_first_is_outermost {W Ctx Val Err : Type} (hn : endpoint.Endpoint W Ctx Val Err)
    (mws : List (endpoint.Middleware W Ctx Val Err)) :
    Wrap hn mws = NoopMiddleware (mws.foldr (fun mw nxt => mw nxt) hn) ∧
      (∀ m1 m2 : endpoint.Middleware W Ctx Val Err,
        Wrap hn [m1, m2] = NoopMiddleware (m1 (m2 hn))) ∧
      (∀ (ctx : Ctx) (req : Val) (w : W), Wrap hn [] ctx req w = hn ctx req w) := by
  refine ⟨?_, fun _ _ => rfl, fun _ _ _ => rfl⟩
  unfold Wrap
  simp only [foldl_append_singleton, List.nil_append]
  exact chain_eq_foldr NoopMiddleware mws hn

/-- C9, as the claim states it, at the option `HandlerWithMiddleware(nil)`:
`newHandler` panics in `Wrap` and produces no handler. -/
theorem newHandler_nil_middleware_no_handler :
    newHandler exampleLib exampleHandler
      (([Built.Middleware none] : List (Built exampleLib)).map Built.option) = none :=
  rfl

/-- C9, amended. For every handler and every list of options built from the
exported `HandlerWith*` constructors in which no middleware option passes nil,
`newHandler` returns a handler; its encoder is the function passed to the last
`HandlerWithEncoder` when that is not nil, and `newDefaultEncoder()` otherwise;
likewise its decoder; the encoder is not nil when `newDefaultEncoder()` is not
nil, and the decoder is not nil when `newDefaultDecoder()` is not nil. -/
theorem newHandler_encoder_decoder (L : Lib) (fn : Handler L) (bs : List (Built L))
    (hb : ∀ b ∈ bs, b.passesNilMiddleware = false) :
    ∃ hd, newHandler L fn (bs.map Built.option) = some hd ∧
      hd.encoder = expectedEncoder bs ∧
      hd.decoder = expectedDecoder bs ∧
      (L.newDefaultEncoder ≠ none → hd.encoder ≠ none) ∧
      (L.newDefaultDecoder ≠ none → hd.decoder ≠ none) := by
  obtain ⟨hd, hret⟩ := newHandler_returns L fn bs hb
  have he := newHandler_encoder L fn bs hd hret
  have hdec := newHandler_decoder L fn bs hd hret
  refine ⟨hd, hret, he, hdec, ?_, ?_⟩
  · intro hE
    rw [he]
    unfold expectedEncoder
    split
    · simp
    · exact hE
  · intro hD
    rw [hdec]
    unfold expectedDecoder
    split
    · simp
    · exact hD

/-- The small instance: no middleware option passes nil, so `newHandler`
returns a handler; the last encoder option passed nil, so the encoder is the
default one, `100`; the decoder is the one passed last, `8`. -/
theorem newHandler_encoder_decoder_witness :
    (∀ b ∈ exampleOptions, b.passesNilMiddleware = false) ∧
      ∃ hd, newHandler exampleLib exampleHandler (exampleOptions.map Built.option) = some hd ∧
        hd.encoder = some 100 ∧ hd.decoder = some 8 ∧ hd.encoder ≠ none ∧ hd.decoder ≠ none :=
  ⟨by simp [exampleOptions, Built.passesNilMiddleware],
    (newHandler_encoder_decoder exampleLib exampleHandler exampleOptions
      (by simp [exampleOptions, Built.passesNilMiddleware])).elim
      (fun hd h => ⟨hd, h.1, h.2.1, h.2.2.1, h.2.2.2.1 (by simp), h.2.2.2.2 (by simp)⟩)⟩

end http
